import Mathlib

/-!
# Campaign KPI analyzer: verified model

Shallow embedding of the core logic of `campaign_kpi_app.py`
(phone normalization, item/date filtering, reach matching, KPI
aggregation, per-day breakdown), together with theorems settling the
specification claims about it.

Modelling conventions:
* a pandas scalar that may be `NaN`/missing is an `Option`;
* numeric columns (`quantity`, `total_spent`) are rationals;
* `created_at` carries the result of `pd.to_datetime(..., errors="coerce")`:
  `some t` is a timestamp (seconds), `none` is `NaT` (unparseable);
* the calendar date of a timestamp is its floor-division by 86400.
-/

namespace Campaign

/-- The digit-only characters of the string form of a value:
`"".join(ch for ch in str(x) if ch.isdigit())` in `norm_phone`. -/
def digitsOf (x : String) : List Char :=
  x.data.filter Char.isDigit

/-- `norm_phone` from `campaign_kpi_app.py` (lines 9-13): keep only digits;
if the result starts with `"974"` return it; else if it has exactly 8
characters prepend `"974"`; else return it unchanged.
`s.startswith("974")` is rendered as `s.take 3 = ['9','7','4']`. -/
def norm_phone (x : String) : String :=
  let s := digitsOf x
  if s.take 3 = ['9', '7', '4'] then String.mk s
  else if s.length = 8 then String.mk ('9' :: '7' :: '4' :: s)
  else String.mk s

/-- The normalizer as §4.1 of the spec words it: strip non-digits from the
string form; if the result begins with "974" return it unchanged; else if
it has exactly 8 characters prepend "974"; else return it as-is. -/
def normalizeSpec (x : String) : String :=
  let s := x.data.filter Char.isDigit
  if s.take 3 = ['9', '7', '4'] then String.mk s
  else if s.length = 8 then String.mk ('9' :: '7' :: '4' :: s)
  else String.mk s

theorem digitsOf_all_digits (x : String) : ∀ c ∈ digitsOf x, c.isDigit := by
  intro c hc
  exact (List.mem_filter.mp hc).2

theorem filter_isDigit_self {l : List Char} (h : ∀ c ∈ l, c.isDigit) :
    l.filter Char.isDigit = l :=
  List.filter_eq_self.mpr h

theorem digitsOf_mk_self {l : List Char} (h : ∀ c ∈ l, c.isDigit) :
    digitsOf (String.mk l) = l :=
  filter_isDigit_self h

/-- C1 -- `norm_phone` agrees everywhere with the spec's §4.1 description of
the normalizer, and an input without digits normalizes to the empty
string. -/
theorem norm_phone_matches_spec (x : String) :
    norm_phone x = normalizeSpec x ∧
      (x.data.filter Char.isDigit = [] → norm_phone x = "") := by
  refine ⟨rfl, fun h => ?_⟩
  unfold norm_phone digitsOf
  rw [h]
  rfl

/-- Witness for C1 at the digitless input `"abc"`. -/
theorem norm_phone_matches_spec_witness :
    norm_phone "abc" = normalizeSpec "abc" ∧ norm_phone "abc" = "" := by
  have h := norm_phone_matches_spec "abc"
  exact ⟨h.1, h.2 (by decide)⟩

/-- C4 (counterexample) -- the claim "for every 8-digit string `d`,
`normalize(d) = \"974\" ++ d`" fails at `d = "97412345"`: the code's
startswith-974 branch fires first and returns `d` unchanged. -/
theorem norm_phone_eight_digits_cex :
    norm_phone "97412345" = "97412345" ∧
      norm_phone "97412345" ≠ "974" ++ "97412345" := by
  constructor
  · rfl
  · decide

/-- C4 (amended) -- for every string of exactly 8 digits that does not
begin with "974", `norm_phone` prepends "974". -/
theorem norm_phone_eight_digits (d : String)
    (hlen : d.data.length = 8)
    (hdig : ∀ c ∈ d.data, c.isDigit)
    (hpre : d.data.take 3 ≠ ['9', '7', '4']) :
    norm_phone d = "974" ++ d := by
  unfold norm_phone
  have hs : digitsOf d = d.data := filter_isDigit_self hdig
  rw [hs]
  rw [if_neg hpre, if_pos hlen]
  show String.mk ('9' :: '7' :: '4' :: d.data) = "974" ++ d
  cases d
  rfl

/-- Witness for C4 (amended) at `d = "12345678"`. -/
theorem norm_phone_eight_digits_witness :
    norm_phone "12345678" = "974" ++ "12345678" :=
  norm_phone_eight_digits "12345678" (by decide) (by decide) (by decide)

theorem norm_phone_eq (x : String) :
    norm_phone x =
      if (digitsOf x).take 3 = ['9', '7', '4'] then String.mk (digitsOf x)
      else if (digitsOf x).length = 8 then
        String.mk ('9' :: '7' :: '4' :: digitsOf x)
      else String.mk (digitsOf x) := rfl

theorem norm_phone_output_digits (x : String) :
    ∀ c ∈ (norm_phone x).data, c.isDigit := by
  intro c hc
  rw [norm_phone_eq] at hc
  split at hc
  · exact digitsOf_all_digits x c hc
  · split at hc
    · simp only [String.data, List.mem_cons] at hc
      rcases hc with h9 | h7 | h4 | hrest
      · rw [h9]; decide
      · rw [h7]; decide
      · rw [h4]; decide
      · exact digitsOf_all_digits x c hrest
    · exact digitsOf_all_digits x c hc

/-- C9 -- `norm_phone` is idempotent on every input. -/
theorem norm_phone_idem (x : String) :
    norm_phone (norm_phone x) = norm_phone x := by
  have hdig : ∀ c ∈ (norm_phone x).data, c.isDigit := norm_phone_output_digits x
  have hself : digitsOf (norm_phone x) = (norm_phone x).data :=
    filter_isDigit_self hdig
  conv_lhs => rw [norm_phone_eq]
  rw [hself]
  by_cases h9 : (digitsOf x).take 3 = ['9', '7', '4']
  · have hx : norm_phone x = String.mk (digitsOf x) := by
      rw [norm_phone_eq, if_pos h9]
    rw [hx]
    simp only [String.data]
    rw [if_pos h9]
  · by_cases h8 : (digitsOf x).length = 8
    · have hx : norm_phone x = String.mk ('9' :: '7' :: '4' :: digitsOf x) := by
        rw [norm_phone_eq, if_neg h9, if_pos h8]
      rw [hx]
      simp only [String.data]
      rw [if_pos (show List.take 3 ('9' :: '7' :: '4' :: digitsOf x)
        = ['9', '7', '4'] from rfl)]
    · have hx : norm_phone x = String.mk (digitsOf x) := by
        rw [norm_phone_eq, if_neg h9, if_neg h8]
      rw [hx]
      simp only [String.data]
      rw [if_neg h9, if_neg h8]

/-!
## Item filter (line 26)

`buyers["item_name"].str.contains(item_filter, case=False, na=False)`
interprets `item_filter` as a regular expression (`regex=True` is the
pandas default) searched case-insensitively anywhere in the value, with
null values yielding `False`.  We embed the fragment of Python regex
that consists of literal characters and the metacharacter `.` (match any
character); patterns are compared after case-folding both sides, which
models `case=False`.
-/

/-- One token of the regex fragment: a literal character (stored
case-folded) or `.` which matches any character. -/
inductive RTok
  | lit (c : Char)
  | dot
deriving DecidableEq

/-- Whether one regex token matches one character, case-insensitively. -/
def tokMatch : RTok → Char → Bool
  | .lit c, d => c == d.toLower
  | .dot, _ => true

/-- Whether the token list matches a prefix of the character list. -/
def matchHere : List RTok → List Char → Bool
  | [], _ => true
  | _ :: _, [] => false
  | t :: ts, c :: cs => tokMatch t c && matchHere ts cs

/-- `re.search` over the fragment: the token list matches starting at
some position of the character list. -/
def rsearch (ts : List RTok) : List Char → Bool
  | [] => matchHere ts []
  | c :: cs => matchHere ts (c :: cs) || rsearch ts cs

/-- Compile a pattern string into the fragment's tokens: `.` becomes the
any-character token, everything else a case-folded literal. -/
def parsePat (p : String) : List RTok :=
  p.data.map fun c => if c = '.' then RTok.dot else RTok.lit c.toLower

/-- Python `re` metacharacters; a pattern avoiding all of them is matched
purely literally. -/
def isRegexMeta (c : Char) : Bool :=
  c == '.' || c == '^' || c == '$' || c == '*' || c == '+' || c == '?' ||
    c == '\x7b' || c == '\x7d' || c == '[' || c == ']' || c == '\\' ||
    c == '|' || c == '(' || c == ')'

/-- `strPref p s`: the character list `p` is a prefix of `s`. -/
def strPref : List Char → List Char → Bool
  | [], _ => true
  | _ :: _, [] => false
  | a :: as, b :: bs => a == b && strPref as bs

/-- `strSub p s`: the character list `p` occurs contiguously inside `s`. -/
def strSub (p : List Char) : List Char → Bool
  | [] => strPref p []
  | c :: cs => strPref p (c :: cs) || strSub p cs

/-- Case-insensitive substring containment of `pat` in `s`, the relation
the spec's words describe for the item filter. -/
def containsCI (s pat : String) : Bool :=
  strSub (pat.data.map Char.toLower) (s.data.map Char.toLower)

theorem matchHere_lit (p : List Char) :
    ∀ s : List Char,
      matchHere (p.map fun c => RTok.lit c.toLower) s
        = strPref (p.map Char.toLower) (s.map Char.toLower) := by
  induction p with
  | nil => intro s; cases s <;> rfl
  | cons a as ih =>
    intro s
    cases s with
    | nil => rfl
    | cons b bs =>
      show (tokMatch (RTok.lit a.toLower) b
          && matchHere (as.map fun c => RTok.lit c.toLower) bs)
        = (a.toLower == b.toLower && strPref (as.map Char.toLower) (bs.map Char.toLower))
      rw [ih bs]
      rfl

theorem rsearch_lit (p : List Char) :
    ∀ s : List Char,
      rsearch (p.map fun c => RTok.lit c.toLower) s
        = strSub (p.map Char.toLower) (s.map Char.toLower) := by
  intro s
  induction s with
  | nil =>
    show matchHere (p.map fun c => RTok.lit c.toLower) []
      = strPref (p.map Char.toLower) []
    exact matchHere_lit p []
  | cons b bs ih =>
    show (matchHere (p.map fun c => RTok.lit c.toLower) (b :: bs)
        || rsearch (p.map fun c => RTok.lit c.toLower) bs)
      = (strPref (p.map Char.toLower) (b.toLower :: bs.map Char.toLower)
        || strSub (p.map Char.toLower) (bs.map Char.toLower))
    rw [ih, matchHere_lit p (b :: bs)]
    rfl

theorem parsePat_lit (p : String) (hdot : ∀ c ∈ p.data, c ≠ '.') :
    parsePat p = p.data.map fun c => RTok.lit c.toLower := by
  unfold parsePat
  apply List.map_congr_left
  intro c hc
  rw [if_neg (hdot c hc)]

/-!
## Data model

One buyers row (`phone_number, order_id, created_at, item_name, quantity,
total_spent`), one reach row (`phone_number`), rows of the merged
"converted" table (all buyer columns plus the `_phone` key added on
line 21), and rows of the `by_day` table of lines 52-56.
-/

structure BuyerRow where
  phone_number : String
  order_id : Int
  created_at : Option Int
  item_name : Option String
  quantity : Option ℚ
  total_spent : Option ℚ
deriving DecidableEq

structure ReachRow where
  phone_number : String
deriving DecidableEq

structure ConvRow where
  phone_number : String
  order_id : Int
  created_at : Option Int
  item_name : Option String
  quantity : Option ℚ
  total_spent : Option ℚ
  phoneN : String
deriving DecidableEq

structure DayRow where
  day : Int
  orders : Nat
  buyers : Nat
  revenue : ℚ
deriving DecidableEq

/-- The summary scalars of lines 33-49 plus the two result tables. -/
structure KPIOut where
  reach_u : Nat
  conv_u : Nat
  conv_rate : ℚ
  total_revenue : Option ℚ
  total_orders : Nat
  total_units : Option ℚ
  aov : Option ℚ
  repeat_count : Nat
  repeat_rate : ℚ
  conv : List ConvRow
  by_day : List DayRow
deriving DecidableEq

/-- Python `str.strip()`: drop whitespace from both ends. -/
def pyStrip (s : String) : String :=
  String.mk
    (((s.data.dropWhile Char.isWhitespace).reverse.dropWhile
      Char.isWhitespace).reverse)

/-- The row predicate of line 26:
`buyers["item_name"].str.contains(item_filter, case=False, na=False)` —
null `item_name` gives `False` (`na=False`), otherwise a case-insensitive
regex search of the filter in the value. -/
def itemKeep (p : String) (r : BuyerRow) : Bool :=
  match r.item_name with
  | none => false
  | some s => rsearch (parsePat p) s.data

/-- Line 25-26: `if item_filter: buyers = buyers[...contains...]`.
`None` and the empty string are falsy, so no filtering happens then. -/
def applyItemFilter (pat : Option String) (rows : List BuyerRow) :
    List BuyerRow :=
  match pat with
  | none => rows
  | some p => if p = "" then rows else rows.filter (itemKeep p)

/-- `buyers["created_at"] >= pd.to_datetime(start)`: a `NaT` (unparseable)
date compares false and the row is dropped. -/
def keepAfter (s : Int) (r : BuyerRow) : Bool :=
  match r.created_at with
  | none => false
  | some t => decide (s ≤ t)

/-- `buyers["created_at"] <= pd.to_datetime(end)`: `NaT` compares false. -/
def keepBefore (e : Int) (r : BuyerRow) : Bool :=
  match r.created_at with
  | none => false
  | some t => decide (t ≤ e)

/-- Lines 30-31: the optional inclusive date window.  The rows are taken
post-parse (`created_at` already holds the `to_datetime` result, with
`none` for coerced `NaT`). -/
def applyDates (start stop : Option Int) (rows : List BuyerRow) :
    List BuyerRow :=
  let r1 := match start with
    | none => rows
    | some s => rows.filter (keepAfter s)
  match stop with
  | none => r1
  | some e => r1.filter (keepBefore e)

/-- The distinct normalized reach identities,
`reach[["_phone"]].drop_duplicates()` with `_phone` from line 22. -/
def reachPhones (reach : List ReachRow) : List String :=
  (reach.map fun r => norm_phone r.phone_number).dedup

def toConv (r : BuyerRow) (ph : String) : ConvRow :=
  { phone_number := r.phone_number, order_id := r.order_id,
    created_at := r.created_at, item_name := r.item_name,
    quantity := r.quantity, total_spent := r.total_spent, phoneN := ph }

/-- Line 37: inner-merge of the filtered buyers with the deduplicated
reach identities on `_phone`.  The `_phone` value of a buyer row is the
one computed on line 21, i.e. `norm_phone` of its `phone_number` (the
filters in between do not touch it), so it is recomputed here. -/
def matchConv (rows : List BuyerRow) (rp : List String) : List ConvRow :=
  rows.filterMap fun r =>
    let ph := norm_phone r.phone_number
    if ph ∈ rp then some (toConv r ph) else none

/-- pandas `Series.nunique()` over non-null values. -/
def nuniq {α : Type} [DecidableEq α] (l : List α) : Nat :=
  l.dedup.length

/-- pandas `Series.sum(min_count=1)`: skip nulls, but return `NaN`
(`none`) when no non-null value remains. -/
def pdSum1 (xs : List (Option ℚ)) : Option ℚ :=
  let v := xs.reduceOption
  if v.isEmpty then none else some v.sum

/-- Python `v or 0` applied to the sums of lines 41 and 43.  `NaN` is
truthy in Python (`bool(nan) = True`), so `nan or 0` stays `NaN`;
`0.0 or 0` is `0`; other values pass through. -/
def pyOrZero : Option ℚ → Option ℚ
  | none => none
  | some q => if q == 0 then some 0 else some q

/-- Line 52, `conv["created_at"].dt.date`: the calendar date of the
timestamp (`NaT` stays null and is later dropped by `groupby`). -/
def dayOf (r : ConvRow) : Option Int :=
  r.created_at.map fun t => Int.fdiv t 86400

/-- The column name the `by_day` aggregation groups buyers by,
`" _phone".strip()` from line 55. -/
def byDayBuyersCol : String := pyStrip " _phone"

/-- String-keyed column access on a converted row, for the string-valued
columns an `agg` spec can name (only `_phone` qualifies). -/
def getStrCol (r : ConvRow) (c : String) : Option String :=
  if c = "_phone" then some r.phoneN else none

/-- Lines 52-56: group the converted rows by calendar day (null days are
dropped by `groupby`, keys sorted ascending) and per group count distinct
`order_id`, distinct values of the `" _phone".strip()` column, and sum
`total_spent` (plain `sum`: an all-null group sums to 0). -/
def byDay (conv : List ConvRow) : List DayRow :=
  let days := List.insertionSort (· ≤ ·) (conv.filterMap dayOf).dedup
  days.map fun d =>
    let g := conv.filter fun r => decide (dayOf r = some d)
    { day := d,
      orders := nuniq (g.map fun r => r.order_id),
      buyers := nuniq (g.filterMap fun r => getStrCol r byDayBuyersCol),
      revenue := ((g.map fun r => r.total_spent).reduceOption).sum }

/-- `compute_kpis` (lines 15-69).  `buyers` rows carry `created_at`
post-parse; `start`/`stop`/`item_filter` are the three optional
parameters.  (`buyers_u` of line 34 is computed by the code but unused
downstream and is omitted.) -/
def compute_kpis (buyers : List BuyerRow) (reach : List ReachRow)
    (start stop : Option Int) (item_filter : Option String) : KPIOut :=
  let fb := applyDates start stop (applyItemFilter item_filter buyers)
  let rp := reachPhones reach
  let reach_u := rp.length
  let conv := matchConv fb rp
  let conv_u := nuniq (conv.map fun r => r.phoneN)
  let conv_rate : ℚ :=
    if reach_u = 0 then 0 else (conv_u : ℚ) / (reach_u : ℚ) * 100
  let total_revenue := pyOrZero (pdSum1 (conv.map fun r => r.total_spent))
  let total_orders := nuniq (conv.map fun r => r.order_id)
  let total_units := pyOrZero (pdSum1 (conv.map fun r => r.quantity))
  let aov : Option ℚ :=
    if total_orders = 0 then some 0
    else total_revenue.map fun q => q / (total_orders : ℚ)
  let phones := (conv.map fun r => r.phoneN).dedup
  let repeat_count := (phones.filter fun p =>
    decide (1 < nuniq ((conv.filter fun r => r.phoneN == p).map
      fun r => r.order_id))).length
  let repeat_rate : ℚ :=
    if conv_u = 0 then 0 else (repeat_count : ℚ) / (conv_u : ℚ) * 100
  { reach_u := reach_u, conv_u := conv_u, conv_rate := conv_rate,
    total_revenue := total_revenue, total_orders := total_orders,
    total_units := total_units, aov := aov, repeat_count := repeat_count,
    repeat_rate := repeat_rate, conv := conv, by_day := byDay conv }

/-- A concrete buyer row used in witnesses and counterexamples. -/
def rowItemA : BuyerRow :=
  { phone_number := "12345678", order_id := 1, created_at := some 0,
    item_name := some "a", quantity := some 1, total_spent := some 100 }

/-- The item filter as the spec words it: keep a row iff its non-null
`item_name` contains the filter string as a substring, case-insensitively. -/
def itemKeepSpec (p : String) (r : BuyerRow) : Bool :=
  match r.item_name with
  | none => false
  | some s => containsCI s p

/-- C3 (counterexample) -- with filter string `"."` the code keeps a row
whose `item_name` is `"a"`, although `"a"` does not contain `"."` as a
substring: line 26 interprets the filter as a regular expression
(`regex=True` is the pandas default), not as a literal substring. -/
theorem applyItemFilter_substring_cex :
    applyItemFilter (some ".") [rowItemA] = [rowItemA] ∧
      containsCI "a" "." = false := by
  constructor
  · rfl
  · rfl

/-- C3 (amended) -- for a non-empty filter string containing no regex
metacharacter, the filter stage keeps exactly the rows whose non-null
`item_name` contains the string case-insensitively; null `item_name`
never matches. -/
theorem applyItemFilter_substring (p : String) (rows : List BuyerRow)
    (hne : p ≠ "") (hmeta : ∀ c ∈ p.data, isRegexMeta c = false) :
    applyItemFilter (some p) rows = rows.filter (itemKeepSpec p) := by
  have hdot : ∀ c ∈ p.data, c ≠ '.' := by
    intro c hc heq
    have hm := hmeta c hc
    rw [heq] at hm
    simp [isRegexMeta] at hm
  show (if p = "" then rows else rows.filter (itemKeep p)) = _
  rw [if_neg hne]
  apply List.filter_congr
  intro r _
  show itemKeep p r = itemKeepSpec p r
  unfold itemKeep itemKeepSpec
  cases r.item_name with
  | none => rfl
  | some s =>
    show rsearch (parsePat p) s.data = containsCI s p
    rw [parsePat_lit p hdot, rsearch_lit]
    rfl

/-- Witness for C3 (amended) at filter `"a"` on a one-row table. -/
theorem applyItemFilter_substring_witness :
    applyItemFilter (some "a") [rowItemA] = [rowItemA].filter (itemKeepSpec "a") :=
  applyItemFilter_substring "a" [rowItemA] (by decide) (by decide)

/-- C2 -- at a concrete input whose converted set is empty (the reach
table is empty, so nothing matches), `Total revenue` and `Total units`
are `NaN` (modelled `none`), not the 0 the spec promises:
`Series.sum(min_count=1)` returns `NaN` there and `nan or 0` keeps the
`NaN` because `NaN` is truthy in Python. -/
theorem totals_nan_on_empty_conv :
    (compute_kpis [rowItemA] [] none none none).conv = [] ∧
      (compute_kpis [rowItemA] [] none none none).total_revenue = none ∧
      (compute_kpis [rowItemA] [] none none none).total_units = none ∧
      (compute_kpis [rowItemA] [] none none none).total_revenue ≠ some 0 := by
  refine ⟨rfl, rfl, rfl, by decide⟩

theorem compute_kpis_aov (b : List BuyerRow) (r : List ReachRow)
    (st sp : Option Int) (pa : Option String) :
    (compute_kpis b r st sp pa).aov
      = if (compute_kpis b r st sp pa).total_orders = 0 then some 0
        else (compute_kpis b r st sp pa).total_revenue.map
          fun q => q / ((compute_kpis b r st sp pa).total_orders : ℚ) := rfl

theorem compute_kpis_repeat_rate (b : List BuyerRow) (r : List ReachRow)
    (st sp : Option Int) (pa : Option String) :
    (compute_kpis b r st sp pa).repeat_rate
      = if (compute_kpis b r st sp pa).conv_u = 0 then 0
        else ((compute_kpis b r st sp pa).repeat_count : ℚ)
          / ((compute_kpis b r st sp pa).conv_u : ℚ) * 100 := rfl

/-- C8 -- ratio metrics with zero denominators resolve to 0: AOV is
revenue over distinct orders, 0 when there are no orders; the repeat
buyer rate is repeat count over `conv_u` times 100, 0 when `conv_u` is
0. -/
theorem ratio_zero_denominators (b : List BuyerRow) (r : List ReachRow)
    (st sp : Option Int) (pa : Option String) :
    ((compute_kpis b r st sp pa).total_orders = 0 →
        (compute_kpis b r st sp pa).aov = some 0) ∧
      ((compute_kpis b r st sp pa).total_orders ≠ 0 →
        (compute_kpis b r st sp pa).aov
          = (compute_kpis b r st sp pa).total_revenue.map
              fun q => q / ((compute_kpis b r st sp pa).total_orders : ℚ)) ∧
      ((compute_kpis b r st sp pa).conv_u = 0 →
        (compute_kpis b r st sp pa).repeat_rate = 0) ∧
      ((compute_kpis b r st sp pa).conv_u ≠ 0 →
        (compute_kpis b r st sp pa).repeat_rate
          = ((compute_kpis b r st sp pa).repeat_count : ℚ)
            / ((compute_kpis b r st sp pa).conv_u : ℚ) * 100) := by
  refine ⟨fun h => ?_, fun h => ?_, fun h => ?_, fun h => ?_⟩
  · rw [compute_kpis_aov, if_pos h]
  · rw [compute_kpis_aov, if_neg h]
  · rw [compute_kpis_repeat_rate, if_pos h]
  · rw [compute_kpis_repeat_rate, if_neg h]

/-- Witness for C8 on an input with no conversions and no orders. -/
theorem ratio_zero_denominators_witness :
    (compute_kpis [rowItemA] [] none none none).aov = some 0 ∧
      (compute_kpis [rowItemA] [] none none none).repeat_rate = 0 := by
  have h := ratio_zero_denominators [rowItemA] [] none none none
  exact ⟨h.1 (by decide), h.2.2.1 (by decide)⟩

theorem compute_kpis_conv (b : List BuyerRow) (r : List ReachRow)
    (st sp : Option Int) (pa : Option String) :
    (compute_kpis b r st sp pa).conv
      = matchConv (applyDates st sp (applyItemFilter pa b)) (reachPhones r) := rfl

theorem compute_kpis_reach_u (b : List BuyerRow) (r : List ReachRow)
    (st sp : Option Int) (pa : Option String) :
    (compute_kpis b r st sp pa).reach_u = (reachPhones r).length := rfl

theorem compute_kpis_conv_u (b : List BuyerRow) (r : List ReachRow)
    (st sp : Option Int) (pa : Option String) :
    (compute_kpis b r st sp pa).conv_u
      = nuniq ((compute_kpis b r st sp pa).conv.map fun c => c.phoneN) := rfl

theorem compute_kpis_conv_rate (b : List BuyerRow) (r : List ReachRow)
    (st sp : Option Int) (pa : Option String) :
    (compute_kpis b r st sp pa).conv_rate
      = if (compute_kpis b r st sp pa).reach_u = 0 then 0
        else ((compute_kpis b r st sp pa).conv_u : ℚ)
          / ((compute_kpis b r st sp pa).reach_u : ℚ) * 100 := rfl

/-- Every `_phone` value of a merged row is one of the distinct reach
identities: the inner merge of line 37 only keeps matching rows. -/
theorem matchConv_phoneN_mem (rows : List BuyerRow) (rp : List String) :
    ∀ x ∈ (matchConv rows rp).map fun c => c.phoneN, x ∈ rp := by
  intro x hx
  rw [List.mem_map] at hx
  obtain ⟨c, hc, rfl⟩ := hx
  simp only [matchConv, List.mem_filterMap] at hc
  obtain ⟨a, _, haa⟩ := hc
  split at haa
  · rename_i h
    cases haa
    exact h
  · exact Option.noConfusion haa

/-- C5 -- for every pair of input tables and filter parameters, the
distinct converted identity count is at most the distinct reach identity
count, and the conversion rate lies in `[0, 100]` (it is an exact
rational here, so in particular never `NaN`). -/
theorem conv_u_le_reach_u_rate_bounds (b : List BuyerRow) (r : List ReachRow)
    (st sp : Option Int) (pa : Option String) :
    (compute_kpis b r st sp pa).conv_u ≤ (compute_kpis b r st sp pa).reach_u ∧
      0 ≤ (compute_kpis b r st sp pa).conv_rate ∧
      (compute_kpis b r st sp pa).conv_rate ≤ 100 := by
  have hle : (compute_kpis b r st sp pa).conv_u
      ≤ (compute_kpis b r st sp pa).reach_u := by
    rw [compute_kpis_conv_u, compute_kpis_reach_u, compute_kpis_conv]
    unfold nuniq
    have hsub :
        ((matchConv (applyDates st sp (applyItemFilter pa b))
          (reachPhones r)).map fun c => c.phoneN).dedup ⊆ reachPhones r := by
      intro x hxin
      exact matchConv_phoneN_mem _ _ x (List.dedup_subset _ hxin)
    exact ((List.nodup_dedup _).subperm hsub).length_le
  refine ⟨hle, ?_, ?_⟩
  · rw [compute_kpis_conv_rate]
    split
    · exact le_refl 0
    · positivity
  · rw [compute_kpis_conv_rate]
    split
    · norm_num
    · rename_i h
      have hr0 : (0 : ℚ) < ((compute_kpis b r st sp pa).reach_u : ℚ) := by
        exact_mod_cast Nat.pos_of_ne_zero h
      have hcr : ((compute_kpis b r st sp pa).conv_u : ℚ)
          ≤ ((compute_kpis b r st sp pa).reach_u : ℚ) := by
        exact_mod_cast hle
      have h1 : ((compute_kpis b r st sp pa).conv_u : ℚ)
          / ((compute_kpis b r st sp pa).reach_u : ℚ) ≤ 1 :=
        (div_le_one hr0).mpr hcr
      linarith

/-- C6 -- a buyer row whose `created_at` failed to parse (`none`, the
model of coerced `NaT`) is dropped whenever a start or end bound is
given, is kept when no bound is given, and a converted row with a null
date contributes to no group of the daily breakdown. -/
theorem unparseable_created_at (r : BuyerRow) (rows : List BuyerRow)
    (start stop : Option Int) (c : ConvRow) (conv : List ConvRow)
    (hr : r.created_at = none) (hc : c.created_at = none) :
    ((start ≠ none ∨ stop ≠ none) → r ∉ applyDates start stop rows) ∧
      applyDates none none rows = rows ∧
      byDay (c :: conv) = byDay conv := by
  have hka : ∀ s, keepAfter s r = false := by
    intro s
    unfold keepAfter
    rw [hr]
  have hkb : ∀ e, keepBefore e r = false := by
    intro e
    unfold keepBefore
    rw [hr]
  have hday : dayOf c = none := by
    unfold dayOf
    rw [hc]
    rfl
  refine ⟨fun hb => ?_, rfl, ?_⟩
  · cases start with
    | none =>
      cases stop with
      | none =>
        rcases hb with h | h <;> exact absurd rfl h
      | some e =>
        intro hmem
        have hp := List.of_mem_filter (p := keepBefore e) hmem
        rw [hkb e] at hp
        exact Bool.noConfusion hp
    | some s =>
      cases stop with
      | none =>
        intro hmem
        have hp := List.of_mem_filter (p := keepAfter s) hmem
        rw [hka s] at hp
        exact Bool.noConfusion hp
      | some e =>
        intro hmem
        have hp := List.of_mem_filter (p := keepBefore e) hmem
        rw [hkb e] at hp
        exact Bool.noConfusion hp
  · simp only [byDay]
    rw [List.filterMap_cons_none hday]
    apply List.map_congr_left
    intro d _
    have hfilter : (c :: conv).filter (fun x => decide (dayOf x = some d))
        = conv.filter fun x => decide (dayOf x = some d) := by
      rw [List.filter_cons]
      simp [hday]
    rw [hfilter]

/-- A concrete buyer row with an unparseable `created_at`. -/
def rowBadDate : BuyerRow :=
  { phone_number := "55667788", order_id := 2, created_at := none,
    item_name := some "WidgetB", quantity := some 1, total_spent := some 50 }

/-- A concrete converted row with an unparseable `created_at`. -/
def convBadDate : ConvRow :=
  { phone_number := "55667788", order_id := 2, created_at := none,
    item_name := some "WidgetB", quantity := some 1, total_spent := some 50,
    phoneN := "97455667788" }

/-- Witness for C6: a null-date row against a start bound, no bounds, and
the daily breakdown. -/
theorem unparseable_created_at_witness :
    (rowBadDate ∉ applyDates (some 0) none [rowBadDate]) ∧
      applyDates none none [rowBadDate] = [rowBadDate] ∧
      byDay [convBadDate] = byDay [] := by
  have h := unparseable_created_at rowBadDate [rowBadDate] (some 0) none
    convBadDate [] rfl rfl
  exact ⟨h.1 (Or.inl (by decide)), h.2.1, h.2.2⟩

/-- The stray-space column reference of line 55 strips to `_phone`. -/
theorem byDayBuyersCol_eq : byDayBuyersCol = "_phone" := by decide

theorem filterMap_getStrCol (l : List ConvRow) :
    (l.filterMap fun r => getStrCol r byDayBuyersCol)
      = l.map fun r => r.phoneN := by
  induction l with
  | nil => rfl
  | cons a as ih =>
    have ha : getStrCol a byDayBuyersCol = some a.phoneN := by
      rw [byDayBuyersCol_eq]
      rfl
    simp [List.filterMap_cons, ha, ih]

theorem sorted_lt_of_sorted_le_nodup {l : List Int}
    (hs : List.Sorted (· ≤ ·) l) (hn : l.Nodup) :
    List.Sorted (· < ·) l := by
  induction l with
  | nil => exact List.sorted_nil
  | cons a as ih =>
    rw [List.sorted_cons] at hs ⊢
    rw [List.nodup_cons] at hn
    refine ⟨fun b hb => lt_of_le_of_ne (hs.1 b hb) fun heq => ?_, ih hs.2 hn.2⟩
    exact hn.1 (by rw [heq]; exact hb)

theorem byDay_days (conv : List ConvRow) :
    (byDay conv).map (fun g => g.day)
      = List.insertionSort (· ≤ ·) (conv.filterMap dayOf).dedup := by
  simp only [byDay]
  generalize List.insertionSort (· ≤ ·) (conv.filterMap dayOf).dedup = days
  induction days with
  | nil => rfl
  | cons d ds ih => simp_all

/-- C7 -- the daily breakdown groups converted rows by the calendar date
of their parsed `created_at`: its days are strictly ascending, a day
appears exactly when some converted row has that date, and each group
row counts distinct `order_id`, counts distinct values of the column the
(space-stripped) grouping reference resolves to — the normalized
identity `_phone` — and sums `total_spent`. -/
theorem byDay_spec (conv : List ConvRow) :
    List.Sorted (· < ·) ((byDay conv).map fun g => g.day) ∧
      (∀ d : Int,
        some d ∈ conv.map dayOf ↔ d ∈ (byDay conv).map fun g => g.day) ∧
      ∀ g ∈ byDay conv,
        g.orders = nuniq ((conv.filter fun x => decide (dayOf x = some g.day)).map
          fun x => x.order_id) ∧
        g.buyers = nuniq ((conv.filter fun x => decide (dayOf x = some g.day)).map
          fun x => x.phoneN) ∧
        g.revenue = (((conv.filter fun x => decide (dayOf x = some g.day)).map
          fun x => x.total_spent).reduceOption).sum := by
  refine ⟨?_, ?_, ?_⟩
  · rw [byDay_days]
    apply sorted_lt_of_sorted_le_nodup
    · exact List.sorted_insertionSort _ _
    · exact ((List.perm_insertionSort _ _).nodup_iff).mpr (List.nodup_dedup _)
  · intro d
    rw [byDay_days, (List.perm_insertionSort _ _).mem_iff, List.mem_dedup,
      List.mem_filterMap]
    exact List.mem_map
  · intro g hg
    simp only [byDay, List.mem_map] at hg
    obtain ⟨d, _, rfl⟩ := hg
    refine ⟨rfl, ?_, rfl⟩
    show nuniq ((conv.filter fun x => decide (dayOf x = some d)).filterMap
        fun x => getStrCol x byDayBuyersCol)
      = nuniq ((conv.filter fun x => decide (dayOf x = some d)).map
        fun x => x.phoneN)
    rw [filterMap_getStrCol]

/-- A concrete converted row on calendar day 1 (timestamp 86400). -/
def convSample : ConvRow :=
  { phone_number := "12345678", order_id := 1, created_at := some 86400,
    item_name := some "WidgetA", quantity := some 2, total_spent := none,
    phoneN := "97412345678" }

/-- The daily-aggregate row that `byDay [convSample]` produces. -/
def dayRow1 : DayRow := { day := 1, orders := 1, buyers := 1, revenue := 0 }

/-- Witness for C7 on a one-row converted table. -/
theorem byDay_spec_witness :
    List.Sorted (· < ·) ((byDay [convSample]).map fun g => g.day) ∧
      ((1 : Int) ∈ (byDay [convSample]).map fun g => g.day) ∧
      dayRow1.buyers = nuniq (([convSample].filter fun x =>
        decide (dayOf x = some dayRow1.day)).map fun x => x.phoneN) := by
  have h := byDay_spec [convSample]
  exact ⟨h.1, (h.2.1 1).mp (by decide), (h.2.2 dayRow1 (by decide)).2.1⟩

/-!
## Frame property of `compute_kpis` (C10)

`compute_kpis` receives its two tables by reference.  Lines 17-18 rebind
the local names to copies (`buyers.copy()`, `reach.copy()`); after that,
the in-place column assignments (`_phone` on lines 21-22, the
`created_at` overwrite on line 29) hit objects created inside the
function, and the boolean-mask selections (lines 26, 30, 31) and the
merge (line 37) each produce fresh objects.  We model the object store
as a list of table objects, a DataFrame reference as an index into it,
`copy` as allocation at the end, and a column assignment as an in-place
write at an index, and prove that the caller-visible cells never change.
In a table object, `hasPhoneCol` records whether the `_phone` column has
been assigned (its values are determined as `norm_phone` of the
`phone_number` column) and `caParsed` whether `created_at` was
overwritten by the `pd.to_datetime` result (row data already carries the
post-parse value).
-/

structure HBuyers where
  rows : List BuyerRow
  hasPhoneCol : Bool
  caParsed : Bool
deriving DecidableEq

structure HReach where
  rows : List ReachRow
  hasPhoneCol : Bool
deriving DecidableEq

inductive Obj
  | bt (t : HBuyers)
  | rt (t : HReach)
deriving DecidableEq

abbrev Heap := List Obj

/-- Allocate a fresh object, returning the new store and its index. -/
def heapAlloc (h : Heap) (o : Obj) : Heap × Nat := (h ++ [o], h.length)

/-- Mutate the object at an index in place. -/
def heapWrite (h : Heap) (i : Nat) (f : Obj → Obj) : Heap :=
  match h[i]? with
  | none => h
  | some o => h.set i (f o)

/-- Dereference an index. -/
def heapRead (h : Heap) (i : Nat) : Obj :=
  h.getD i (Obj.rt { rows := [], hasPhoneCol := false })

def buyersRowsAt (h : Heap) (i : Nat) : List BuyerRow :=
  match heapRead h i with
  | Obj.bt t => t.rows
  | Obj.rt _ => []

def reachRowsAt (h : Heap) (i : Nat) : List ReachRow :=
  match heapRead h i with
  | Obj.rt t => t.rows
  | Obj.bt _ => []

/-- Assigning the `_phone` column (lines 21-22). -/
def setPhoneObj : Obj → Obj
  | Obj.bt t => Obj.bt { t with hasPhoneCol := true }
  | Obj.rt t => Obj.rt { t with hasPhoneCol := true }

/-- Overwriting `created_at` with its parse (line 29). -/
def setParsedObj : Obj → Obj
  | Obj.bt t => Obj.bt { t with caParsed := true }
  | o => o

/-- The function's local frame: the store plus the objects the local
names `buyers` and `reach` currently reference. -/
structure HState where
  heap : Heap
  bIdx : Nat
  rIdx : Nat

/-- Lines 17-18: rebind both locals to fresh copies. -/
def stepCopies (h : Heap) (b r : Nat) : HState :=
  let s1 := heapAlloc h (heapRead h b)
  let s2 := heapAlloc s1.1 (heapRead h r)
  { heap := s2.1, bIdx := s1.2, rIdx := s2.2 }

/-- Lines 21-22: in-place `_phone` assignments on the two copies. -/
def stepPhones (s : HState) : HState :=
  { s with heap := heapWrite (heapWrite s.heap s.bIdx setPhoneObj) s.rIdx setPhoneObj }

/-- Lines 25-26: when the filter is truthy, rebind `buyers` to a fresh
frame holding the kept rows (mask selection copies). -/
def stepItem (s : HState) (pat : Option String) : HState :=
  match pat with
  | none => s
  | some p =>
    if p = "" then s
    else
      let a := heapAlloc s.heap (Obj.bt
        { rows := (buyersRowsAt s.heap s.bIdx).filter (itemKeep p),
          hasPhoneCol := true, caParsed := false })
      { s with heap := a.1, bIdx := a.2 }

/-- Line 29: in-place `created_at` overwrite on the current frame. -/
def stepParse (s : HState) : HState :=
  { s with heap := heapWrite s.heap s.bIdx setParsedObj }

/-- Line 30: rebind to a fresh frame of rows on or after `start`. -/
def stepStart (s : HState) (v : Option Int) : HState :=
  match v with
  | none => s
  | some q =>
    let a := heapAlloc s.heap (Obj.bt
      { rows := (buyersRowsAt s.heap s.bIdx).filter (keepAfter q),
        hasPhoneCol := true, caParsed := true })
    { s with heap := a.1, bIdx := a.2 }

/-- Line 31: rebind to a fresh frame of rows on or before `end`. -/
def stepStop (s : HState) (v : Option Int) : HState :=
  match v with
  | none => s
  | some q =>
    let a := heapAlloc s.heap (Obj.bt
      { rows := (buyersRowsAt s.heap s.bIdx).filter (keepBefore q),
        hasPhoneCol := true, caParsed := true })
    { s with heap := a.1, bIdx := a.2 }

/-- Line 37: the merge allocates the converted frame. -/
def stepMerge (s : HState) : HState :=
  let a := heapAlloc s.heap (Obj.bt
    { rows := (buyersRowsAt s.heap s.bIdx).filter fun x =>
        decide (norm_phone x.phone_number ∈ reachPhones (reachRowsAt s.heap s.rIdx)),
      hasPhoneCol := true, caParsed := true })
  { s with heap := a.1 }

/-- The store-level rendering of `compute_kpis` (lines 17-37): every
operation that touches a table object, in source order. -/
def computeKpisHeap (h : Heap) (b r : Nat) (pat : Option String)
    (start stop : Option Int) : Heap :=
  (stepMerge (stepStop (stepStart (stepParse
    (stepItem (stepPhones (stepCopies h b r)) pat)) start) stop)).heap

/-- The caller-visible prefix of the store is untouched and both local
references point past it. -/
def FrameInv (h0 : Heap) (s : HState) : Prop :=
  s.heap.take h0.length = h0 ∧ h0.length ≤ s.heap.length ∧
    h0.length ≤ s.bIdx ∧ h0.length ≤ s.rIdx

theorem take_set_of_le {α : Type} (l : List α) (i n : Nat) (a : α)
    (hn : n ≤ i) : (l.set i a).take n = l.take n := by
  induction l generalizing i n with
  | nil => rfl
  | cons x xs ih =>
    cases i with
    | zero =>
      cases n with
      | zero => rfl
      | succ n => exact absurd hn (by omega)
    | succ i =>
      cases n with
      | zero => rfl
      | succ n =>
        show x :: (xs.set i a).take n = x :: xs.take n
        rw [ih i n (by omega)]

theorem take_heapWrite (h : Heap) (i : Nat) (f : Obj → Obj) (n : Nat)
    (hn : n ≤ i) : (heapWrite h i f).take n = h.take n := by
  unfold heapWrite
  split
  · rfl
  · exact take_set_of_le _ _ _ _ hn

theorem length_heapWrite (h : Heap) (i : Nat) (f : Obj → Obj) :
    (heapWrite h i f).length = h.length := by
  unfold heapWrite
  split
  · rfl
  · exact List.length_set ..

theorem take_heapAlloc (h : Heap) (o : Obj) (n : Nat) (hn : n ≤ h.length) :
    (heapAlloc h o).1.take n = h.take n :=
  List.take_append_of_le_length hn

theorem stepCopies_inv (h : Heap) (b r : Nat) :
    FrameInv h (stepCopies h b r) := by
  refine ⟨?_, ?_, ?_, ?_⟩
  · show ((h ++ [heapRead h b]) ++ [heapRead h r]).take h.length = h
    rw [List.take_append_of_le_length (by simp),
      List.take_append_of_le_length (le_refl _), List.take_length]
  · show h.length ≤ ((h ++ [heapRead h b]) ++ [heapRead h r]).length
    simp
  · exact le_refl _
  · show h.length ≤ (h ++ [heapRead h b]).length
    simp

theorem stepPhones_inv (h0 : Heap) (s : HState) (hs : FrameInv h0 s) :
    FrameInv h0 (stepPhones s) := by
  obtain ⟨h1, h2, h3, h4⟩ := hs
  refine ⟨?_, ?_, h3, h4⟩
  · show (heapWrite (heapWrite s.heap s.bIdx setPhoneObj) s.rIdx
      setPhoneObj).take h0.length = h0
    rw [take_heapWrite _ _ _ _ h4, take_heapWrite _ _ _ _ h3, h1]
  · show h0.length ≤ (heapWrite (heapWrite s.heap s.bIdx setPhoneObj) s.rIdx
      setPhoneObj).length
    rw [length_heapWrite, length_heapWrite]
    exact h2

theorem stepItem_inv (h0 : Heap) (s : HState) (pat : Option String)
    (hs : FrameInv h0 s) : FrameInv h0 (stepItem s pat) := by
  obtain ⟨h1, h2, h3, h4⟩ := hs
  cases pat with
  | none => exact ⟨h1, h2, h3, h4⟩
  | some p =>
    show FrameInv h0 (if p = "" then s else _)
    split
    · exact ⟨h1, h2, h3, h4⟩
    · refine ⟨?_, ?_, ?_, h4⟩
      · show (s.heap ++ [_]).take h0.length = h0
        rw [List.take_append_of_le_length h2, h1]
      · show h0.length ≤ (s.heap ++ [_]).length
        simp only [List.length_append, List.length_cons, List.length_nil]
        omega
      · exact h2

theorem stepParse_inv (h0 : Heap) (s : HState) (hs : FrameInv h0 s) :
    FrameInv h0 (stepParse s) := by
  obtain ⟨h1, h2, h3, h4⟩ := hs
  refine ⟨?_, ?_, h3, h4⟩
  · show (heapWrite s.heap s.bIdx setParsedObj).take h0.length = h0
    rw [take_heapWrite _ _ _ _ h3, h1]
  · show h0.length ≤ (heapWrite s.heap s.bIdx setParsedObj).length
    rw [length_heapWrite]
    exact h2

theorem stepStart_inv (h0 : Heap) (s : HState) (v : Option Int)
    (hs : FrameInv h0 s) : FrameInv h0 (stepStart s v) := by
  obtain ⟨h1, h2, h3, h4⟩ := hs
  cases v with
  | none => exact ⟨h1, h2, h3, h4⟩
  | some q =>
    refine ⟨?_, ?_, ?_, h4⟩
    · show (s.heap ++ [_]).take h0.length = h0
      rw [List.take_append_of_le_length h2, h1]
    · show h0.length ≤ (s.heap ++ [_]).length
      simp only [List.length_append, List.length_cons, List.length_nil]
      omega
    · exact h2

theorem stepStop_inv (h0 : Heap) (s : HState) (v : Option Int)
    (hs : FrameInv h0 s) : FrameInv h0 (stepStop s v) := by
  obtain ⟨h1, h2, h3, h4⟩ := hs
  cases v with
  | none => exact ⟨h1, h2, h3, h4⟩
  | some q =>
    refine ⟨?_, ?_, ?_, h4⟩
    · show (s.heap ++ [_]).take h0.length = h0
      rw [List.take_append_of_le_length h2, h1]
    · show h0.length ≤ (s.heap ++ [_]).length
      simp only [List.length_append, List.length_cons, List.length_nil]
      omega
    · exact h2

theorem stepMerge_inv (h0 : Heap) (s : HState) (hs : FrameInv h0 s) :
    FrameInv h0 (stepMerge s) := by
  obtain ⟨h1, h2, h3, h4⟩ := hs
  refine ⟨?_, ?_, h3, h4⟩
  · show (s.heap ++ [_]).take h0.length = h0
    rw [List.take_append_of_le_length h2, h1]
  · show h0.length ≤ (s.heap ++ [_]).length
    simp only [List.length_append, List.length_cons, List.length_nil]
    omega

theorem heapRead_append_left (h t : Heap) (i : Nat) (hi : i < h.length) :
    heapRead (h ++ t) i = heapRead h i := by
  unfold heapRead List.getD
  rw [List.get?_append hi]

/-- C10 -- `compute_kpis` never mutates its arguments: after running the
whole pipeline on a store, every caller-visible cell — in particular the
two argument tables — holds exactly the object it held before; all
writes land in objects the function allocated itself. -/
theorem computeKpisHeap_frame (h : Heap) (b r : Nat) (pat : Option String)
    (start stop : Option Int) (hb : b < h.length) (hr : r < h.length) :
    (computeKpisHeap h b r pat start stop).take h.length = h ∧
      heapRead (computeKpisHeap h b r pat start stop) b = heapRead h b ∧
      heapRead (computeKpisHeap h b r pat start stop) r = heapRead h r := by
  have hinv : FrameInv h (stepMerge (stepStop (stepStart (stepParse
      (stepItem (stepPhones (stepCopies h b r)) pat)) start) stop)) :=
    stepMerge_inv _ _ (stepStop_inv _ _ _ (stepStart_inv _ _ _ (stepParse_inv _ _
      (stepItem_inv _ _ _ (stepPhones_inv _ _ (stepCopies_inv h b r))))))
  have htake : (computeKpisHeap h b r pat start stop).take h.length = h :=
    hinv.1
  have hsplit : computeKpisHeap h b r pat start stop
      = h ++ (computeKpisHeap h b r pat start stop).drop h.length := by
    conv_lhs => rw [← List.take_append_drop h.length
      (computeKpisHeap h b r pat start stop)]
    rw [htake]
  refine ⟨htake, ?_, ?_⟩
  · rw [hsplit, heapRead_append_left _ _ _ hb]
  · rw [hsplit, heapRead_append_left _ _ _ hr]

/-- A concrete reach row matching `rowItemA`'s normalized phone. -/
def reachSample : ReachRow := { phone_number := "97412345678" }

/-- A concrete two-cell store: one buyers table, one reach table. -/
def heapSample : Heap :=
  [Obj.bt { rows := [rowItemA], hasPhoneCol := false, caParsed := false },
    Obj.rt { rows := [reachSample], hasPhoneCol := false }]

/-- Witness for C10 on the two-cell store. -/
theorem computeKpisHeap_frame_witness :
    (computeKpisHeap heapSample 0 1 (some "a") (some 0) none).take 2
      = heapSample :=
  (computeKpisHeap_frame heapSample 0 1 (some "a") (some 0) none (by decide)
    (by decide)).1

end Campaign
